import Mathlib

/-!
Shallow embedding of the battleships event-sourced game aggregate
(`src/store/src/lib.rs`): the `GameState` aggregate, the validation gate
`validade`, and the consumption engine `consume`.

Rust `HashMap`s are modelled as association lists keyed by `PlayerId`
(lookup by first match, insert replaces in place or appends, remove deletes
the first matching entry); `VecDeque` is a `List` (front = head).  Fallible
code — the `expect`/`unwrap` calls in the `ShipPlaced` arm of `consume` —
is modelled by returning `Option GameState`, `none` standing for a fatal
precondition violation (panic).
-/

namespace Battleships

/-- Player identifier, `u64` in the source; no arithmetic is performed on it. -/
def PlayerId := Nat

instance : DecidableEq PlayerId := fun a b => Nat.decEq a b

instance : OfNat PlayerId n := ⟨(n : Nat)⟩

/-- Struct for storing player related data (`Player` in `lib.rs`). -/
structure Player where
  name : String
deriving DecidableEq

/-- Axial-cube coordinate triple from `map/mod.rs`; carried as an opaque payload. -/
structure CubeCoords where
  q : Int
  r : Int
  s : Int
deriving DecidableEq

/-- Modelled from the spec: the repository's `ships` module (`ShipType`, `SHIPS`)
is not under `src/`; §2/§6 of the spec describe ship archetypes as opaque values
drawn from a fixed roster.  We model the archetypes as a closed enumeration. -/
inductive ShipType where
  | carrier
  | battleship
  | cruiser
  | submarine
  | destroyer
deriving DecidableEq

/-- Modelled from the spec: the Ship Roster (`ships::SHIPS`), "an immutable,
process-wide ordered list of ship archetypes"; the concrete contents are not
under `src/`, so we fix a standard five-ship roster in a definite order. -/
def SHIPS : List ShipType :=
  [ShipType.carrier, ShipType.battleship, ShipType.cruiser,
   ShipType.submarine, ShipType.destroyer]

/-- The various reasons why a game could end (`EndGameReason` in `lib.rs`). -/
inductive EndGameReason where
  | PlayerLeft (player_id : PlayerId)
  | PlayerWon (winner : PlayerId)
deriving DecidableEq

/-- An event that progresses the GameState forward (`GameEvent` in `lib.rs`). -/
inductive GameEvent where
  | BeginGame (first_player : PlayerId)
  | EndGame (reason : EndGameReason)
  | PlayerJoined (player_id : PlayerId) (player_details : Player)
  | PlayerDisconnected (player_id : PlayerId)
  | ShipMove (player_id : PlayerId) (at_ : CubeCoords)
  | ShipPlaced (player_id : PlayerId) (at_ : CubeCoords) (rot : Nat)
deriving DecidableEq

/-- The different states a game can be in (`GameStage` in `lib.rs`). -/
inductive GameStage where
  | Lobby
  | PreGame
  | InGame
  | Paused
  | Ended
deriving DecidableEq

/-- Association-list model of `HashMap<PlayerId, α>`: lookup (`HashMap::get`). -/
def alookup {α : Type} (k : PlayerId) : List (PlayerId × α) → Option α
  | [] => none
  | (k', v') :: rest => if k = k' then some v' else alookup k rest

/-- `HashMap::contains_key`. -/
def containsKey {α : Type} (k : PlayerId) (m : List (PlayerId × α)) : Bool :=
  (alookup k m).isSome

/-- `HashMap::insert`: replace the value of an existing key in place, else append. -/
def ainsert {α : Type} (k : PlayerId) (v : α) : List (PlayerId × α) → List (PlayerId × α)
  | [] => [(k, v)]
  | (k', v') :: rest => if k = k' then (k, v) :: rest else (k', v') :: ainsert k v rest

/-- `HashMap::remove`: delete the first entry with the given key. -/
def aremove {α : Type} (k : PlayerId) : List (PlayerId × α) → List (PlayerId × α)
  | [] => []
  | (k', v') :: rest => if k = k' then rest else (k', v') :: aremove k rest

/-- `HashMap::get_mut` followed by in-place mutation: replace the value at a key,
never adding a key. -/
def aupdate {α : Type} (k : PlayerId) (v : α) : List (PlayerId × α) → List (PlayerId × α)
  | [] => []
  | (k', v') :: rest => if k = k' then (k', v) :: rest else (k', v') :: aupdate k v rest

/-- `HashMap::keys`, in the model's enumeration order. -/
def akeys {α : Type} (m : List (PlayerId × α)) : List PlayerId :=
  m.map Prod.fst

/-- The game aggregate (`GameState` in `lib.rs`). -/
structure GameState where
  stage : GameStage
  players : List (PlayerId × Player)
  players_garage : List (PlayerId × List ShipType)
  history : List GameEvent
  cur_player : Option PlayerId
deriving DecidableEq

namespace GameState

/-- `impl Default for GameState`. -/
def default : GameState :=
  { stage := GameStage.Lobby
    players := []
    players_garage := []
    history := []
    cur_player := none }

/-- `GameState::is_player_turn`. -/
def is_player_turn (s : GameState) (player_id : PlayerId) : Bool :=
  match s.cur_player with
  | some p => if player_id = p then true else false
  | none => false

/-- `GameState::next_player`: scan the registry for any key other than the
player who just moved. -/
def next_player (s : GameState) : Option PlayerId :=
  match s.cur_player with
  | some player_moved =>
      match s.players.find? (fun kv => decide (kv.1 ≠ player_moved)) with
      | some kv => some kv.1
      | none => none
  | none => none

/-- `GameState::validade` (sic): determines whether an event is valid
considering the current GameState. -/
def validade (s : GameState) (event : GameEvent) : Bool :=
  match event with
  | GameEvent.BeginGame first_player =>
      if alookup first_player s.players = none then false
      else if s.players.length ≠ 2 then false
      else true
  | GameEvent.EndGame reason =>
      match reason with
      | EndGameReason.PlayerWon _ =>
          if s.stage ≠ GameStage.InGame then false else true
      | _ => true
  | GameEvent.PlayerJoined player_id _ =>
      if containsKey player_id s.players then false else true
  | GameEvent.PlayerDisconnected player_id =>
      if !containsKey player_id s.players then false else true
  | GameEvent.ShipMove player_id _ => s.is_player_turn player_id
  | GameEvent.ShipPlaced player_id _ _ =>
      if s.stage ≠ GameStage.PreGame then false
      else
        match alookup player_id s.players_garage with
        | some garage => if garage.length = 0 then false else true
        | none => false

/-- The remaining-ships sum in the `ShipPlaced` arm of `consume`:
`players_garage.get(player).unwrap().len()` summed over `players.keys()`;
`none` models the `unwrap` panic when a registered player has no garage. -/
def remainingShips (garages : List (PlayerId × List ShipType)) :
    List PlayerId → Option Nat
  | [] => some 0
  | p :: ps =>
      match alookup p garages, remainingShips garages ps with
      | some g, some n => some (g.length + n)
      | _, _ => none

/-- `GameState::consume`.  `none` models a fatal precondition violation
(an `expect`/`unwrap` panic); every successful branch appends the event to
`history`. -/
def consume (s : GameState) (valid_event : GameEvent) : Option GameState :=
  match valid_event with
  | GameEvent.BeginGame first_player =>
      some { s with
        cur_player := some first_player
        players_garage :=
          (akeys s.players).foldl (fun g player => ainsert player SHIPS g)
            s.players_garage
        stage := GameStage.PreGame
        history := s.history ++ [valid_event] }
  | GameEvent.EndGame _ =>
      some { s with stage := GameStage.Ended, history := s.history ++ [valid_event] }
  | GameEvent.PlayerDisconnected player_id =>
      some { s with players := aremove player_id s.players
                    history := s.history ++ [valid_event] }
  | GameEvent.PlayerJoined player_id player_details =>
      some { s with players := ainsert player_id player_details s.players
                    history := s.history ++ [valid_event] }
  | GameEvent.ShipMove _ _ =>
      some { s with cur_player := s.next_player
                    history := s.history ++ [valid_event] }
  | GameEvent.ShipPlaced player_id _ _ =>
      match alookup player_id s.players_garage with
      | none => none
      | some garage =>
          match garage with
          | [] => none
          | _ :: rest =>
              let garages := aupdate player_id rest s.players_garage
              match remainingShips garages (akeys s.players) with
              | none => none
              | some ships_remainder =>
                  some { s with
                    players_garage := garages
                    stage := if ships_remainder = 0 then GameStage.InGame else s.stage
                    history := s.history ++ [valid_event] }

end GameState

/-- Fold `consume` over a list of events (the replay fold), failing if any
step panics. -/
def consumeAll : List GameEvent → GameState → Option GameState
  | [], s => some s
  | e :: evs, s =>
      match s.consume e with
      | some s' => consumeAll evs s'
      | none => none

/-- Fold the two-phase protocol over a list of events: each event must pass
`validade` against the state it is consumed on. -/
def validFold : List GameEvent → GameState → Option GameState
  | [], s => some s
  | e :: evs, s =>
      if s.validade e then
        match s.consume e with
        | some s' => validFold evs s'
        | none => none
      else none

/-- `GameState::next_player` with the registry's `HashMap` iteration order made
explicit: Rust's `HashMap` enumerates its entries in a per-instance,
seed-dependent order, so the source's scan is parameterized here by the
enumeration `ord` of the registry; `GameState.next_player` is the
insertion-order instance `ord = s.players`. -/
def next_player_ord (s : GameState) (ord : List (PlayerId × Player)) : Option PlayerId :=
  match s.cur_player with
  | some player_moved =>
      match ord.find? (fun kv => decide (kv.1 ≠ player_moved)) with
      | some kv => some kv.1
      | none => none
  | none => none

/-- `GameState::consume` with the ShipMove arm's registry-scan enumeration order
made explicit; every other arm's result is independent of enumeration order and
delegates to `consume`. -/
def consume_ord (ord : List (PlayerId × Player)) (s : GameState) (e : GameEvent) :
    Option GameState :=
  match e with
  | GameEvent.ShipMove _ _ =>
      some { s with cur_player := next_player_ord s ord
                    history := s.history ++ [e] }
  | _ => s.consume e

/-- Fold `consume_ord` over events, one registry-enumeration order per step
(defaulting to insertion order when `ords` is exhausted). -/
def consumeAllOrd :
    List (List (PlayerId × Player)) → List GameEvent → GameState → Option GameState
  | _, [], s => some s
  | ords, e :: evs, s =>
      match consume_ord (ords.headD s.players) s e with
      | some s' => consumeAllOrd ords.tail evs s'
      | none => none

/-- A ShipPlaced event discriminator, used to describe placement-only runs. -/
def isShipPlaced : GameEvent → Bool
  | GameEvent.ShipPlaced _ _ _ => true
  | _ => false

/-- Total number of not-yet-placed ships across all garages. -/
def garageTotal (s : GameState) : Nat :=
  (s.players_garage.map (fun kv => kv.2.length)).sum

/-- The two-seat placement invariant: the registry holds exactly the two seats,
the garages are exactly the two seats' queues, and the stage is `InGame` exactly
when both queues are drained (else `PreGame`). -/
def TwoSeatInv (p1 p2 : PlayerId) (d1 d2 : Player) (s : GameState) : Prop :=
  s.players = [(p1, d1), (p2, d2)] ∧
  ∃ g1 g2, s.players_garage = [(p1, g1), (p2, g2)] ∧
    s.stage = (if g1.length + g2.length = 0 then GameStage.InGame else GameStage.PreGame)

/-! ### Concrete players, coordinates and runs used as witnesses -/

def pA : Player := ⟨"alice"⟩

def pB : Player := ⟨"bob"⟩

def pC : Player := ⟨"carol"⟩

def co0 : CubeCoords := ⟨0, 0, 0⟩

def spEvent (p : PlayerId) : GameEvent := GameEvent.ShipPlaced p co0 0

/-- A validated run: two players join, the game begins, then a third player
joins (accepted: `validade` for PlayerJoined never checks the stage). -/
def c1Events : List GameEvent :=
  [GameEvent.PlayerJoined 1 pA, GameEvent.PlayerJoined 2 pB,
   GameEvent.BeginGame 1, GameEvent.PlayerJoined 3 pC]

def c1State : GameState := (validFold c1Events GameState.default).getD GameState.default

/-- A validated run ending the game: two players join, then EndGame(PlayerLeft). -/
def c2Events : List GameEvent :=
  [GameEvent.PlayerJoined 1 pA, GameEvent.PlayerJoined 2 pB,
   GameEvent.EndGame (EndGameReason.PlayerLeft 1)]

def c2State : GameState := (validFold c2Events GameState.default).getD GameState.default

def c2wState : GameState :=
  (c2State.consume (GameEvent.EndGame (EndGameReason.PlayerLeft 1))).getD GameState.default

def w8post : GameState :=
  (c2State.consume (GameEvent.BeginGame 1)).getD GameState.default

def w4 : GameState :=
  (GameState.default.consume (GameEvent.PlayerJoined 1 pA)).getD GameState.default

/-- The state immediately after BeginGame in a clean two-player match. -/
def w5s : GameState :=
  { stage := GameStage.PreGame
    players := [(1, pA), (2, pB)]
    players_garage := [(1, SHIPS), (2, SHIPS)]
    history := [GameEvent.PlayerJoined 1 pA, GameEvent.PlayerJoined 2 pB,
                GameEvent.BeginGame 1]
    cur_player := some 1 }

def w5evs : List GameEvent :=
  [spEvent 1, spEvent 1, spEvent 1, spEvent 1, spEvent 1,
   spEvent 2, spEvent 2, spEvent 2, spEvent 2, spEvent 2]

def w5final : GameState := (validFold w5evs w5s).getD GameState.default

def w6s : GameState :=
  { stage := GameStage.InGame
    players := [(1, pA), (2, pB)]
    players_garage := [(1, []), (2, [])]
    history := []
    cur_player := some 1 }

def w6s2 : GameState :=
  { stage := GameStage.InGame
    players := [(1, pA), (2, pB)]
    players_garage := [(1, []), (2, [])]
    history := []
    cur_player := some 2 }

/-- A fully validated run reaching a three-player registry and one ShipMove:
the scan for "the other player" then has two admissible answers. -/
def c3evs : List GameEvent :=
  [GameEvent.PlayerJoined 1 pA, GameEvent.PlayerJoined 2 pB,
   GameEvent.BeginGame 1, GameEvent.PlayerJoined 3 pC,
   GameEvent.ShipMove 1 co0]

/-- An alternative, equally legitimate enumeration of that three-player registry. -/
def c3ord : List (PlayerId × Player) := [(1, pA), (3, pC), (2, pB)]

def c3ords : List (List (PlayerId × Player)) := [[], [], [], [], c3ord]

def c3detState : GameState := (consumeAll c3evs GameState.default).getD GameState.default

def c3altState : GameState :=
  (consumeAllOrd c3ords c3evs GameState.default).getD GameState.default

def c3preState : GameState :=
  (consumeAll (c3evs.take 4) GameState.default).getD GameState.default

def w7s : GameState :=
  { stage := GameStage.Lobby
    players := [(1, pA)]
    players_garage := []
    history := [GameEvent.PlayerJoined 1 pA]
    cur_player := none }

def w9s : GameState := (c2State.consume (GameEvent.PlayerDisconnected 2)).getD GameState.default

def w10s : GameState :=
  { stage := GameStage.InGame
    players := [(1, pA)]
    players_garage := [(1, []), (2, [])]
    history := []
    cur_player := some 1 }

/-! ### Lemmas about the association-list map model -/

lemma alookup_ainsert_self {α : Type} (k : PlayerId) (v : α) (m : List (PlayerId × α)) :
    alookup k (ainsert k v m) = some v := by
  induction m with
  | nil => simp [ainsert, alookup]
  | cons hd tl ih =>
      obtain ⟨k', v'⟩ := hd
      by_cases h : k = k' <;> simp [ainsert, alookup, h, ih]

lemma alookup_ainsert_ne {α : Type} {p k : PlayerId} (v : α) (m : List (PlayerId × α))
    (h : p ≠ k) : alookup p (ainsert k v m) = alookup p m := by
  induction m with
  | nil => simp [ainsert, alookup, h]
  | cons hd tl ih =>
      obtain ⟨k', v'⟩ := hd
      by_cases hk : k = k'
      · subst hk
        simp [ainsert, alookup, h]
      · by_cases hp : p = k' <;> simp [ainsert, alookup, hk, hp, ih]

lemma alookup_isSome_iff_mem {α : Type} (p : PlayerId) (m : List (PlayerId × α)) :
    (alookup p m).isSome = true ↔ p ∈ akeys m := by
  induction m with
  | nil => simp [alookup, akeys]
  | cons hd tl ih =>
      obtain ⟨k', v'⟩ := hd
      by_cases h : p = k' <;> simp [alookup, akeys, h, ih]

lemma alookup_eq_none_of_notMem {α : Type} {p : PlayerId} {m : List (PlayerId × α)}
    (h : p ∉ akeys m) : alookup p m = none := by
  cases hl : alookup p m with
  | none => rfl
  | some v =>
      exact absurd ((alookup_isSome_iff_mem p m).mp (by simp [hl])) h

lemma alookup_aremove_ne {α : Type} {p k : PlayerId} (m : List (PlayerId × α))
    (h : p ≠ k) : alookup p (aremove k m) = alookup p m := by
  induction m with
  | nil => simp [aremove]
  | cons hd tl ih =>
      obtain ⟨k', v'⟩ := hd
      by_cases hk : k = k'
      · subst hk
        simp [aremove, alookup, h]
      · by_cases hp : p = k' <;> simp [aremove, alookup, hk, hp, ih]

lemma alookup_aremove_self {α : Type} {k : PlayerId} {m : List (PlayerId × α)}
    (h : (akeys m).Nodup) : alookup k (aremove k m) = none := by
  induction m with
  | nil => simp [aremove, alookup]
  | cons hd tl ih =>
      obtain ⟨k', v'⟩ := hd
      simp only [akeys, List.map_cons, List.nodup_cons] at h
      by_cases hk : k = k'
      · subst hk
        simpa [aremove] using alookup_eq_none_of_notMem h.1
      · simp [aremove, alookup, hk]
        exact ih h.2

lemma alookup_aupdate_of_none {α : Type} {p k : PlayerId} (v : α)
    {m : List (PlayerId × α)} (h : alookup p m = none) :
    alookup p (aupdate k v m) = none := by
  induction m with
  | nil => simp [aupdate, alookup]
  | cons hd tl ih =>
      obtain ⟨k', v'⟩ := hd
      by_cases hp : p = k'
      · simp [alookup, hp] at h
      · simp only [alookup, hp, if_false] at h
        by_cases hk : k = k' <;> simp [aupdate, alookup, hk, hp, h, ih h]

/-- Seeding garages over a key list never disturbs keys outside the list. -/
lemma alookup_seed_of_notMem (l : List PlayerId) (g0 : List (PlayerId × List ShipType))
    {p : PlayerId} (h : p ∉ l) :
    alookup p (l.foldl (fun g player => ainsert player SHIPS g) g0) = alookup p g0 := by
  induction l generalizing g0 with
  | nil => simp
  | cons q rest ih =>
      simp only [List.mem_cons, not_or] at h
      simp only [List.foldl_cons]
      rw [ih (ainsert q SHIPS g0) h.2, alookup_ainsert_ne _ _ h.1]

/-- Seeding garages over a key list gives every listed key a full roster copy. -/
lemma alookup_seed_of_mem (l : List PlayerId) (g0 : List (PlayerId × List ShipType))
    {p : PlayerId} (h : p ∈ l) :
    alookup p (l.foldl (fun g player => ainsert player SHIPS g) g0) = some SHIPS := by
  induction l generalizing g0 with
  | nil => simp at h
  | cons q rest ih =>
      simp only [List.foldl_cons]
      by_cases hr : p ∈ rest
      · exact ih (ainsert q SHIPS g0) hr
      · have hpq : p = q := by
          rcases List.mem_cons.mp h with h1 | h1
          · exact h1
          · exact absurd h1 hr
        subst hpq
        rw [alookup_seed_of_notMem rest _ hr, alookup_ainsert_self]

/-! ### History lemmas -/

/-- Every successful `consume` appends exactly the consumed event to `history`. -/
lemma consume_history (s : GameState) (e : GameEvent) (s' : GameState)
    (h : s.consume e = some s') : s'.history = s.history ++ [e] := by
  cases e with
  | BeginGame fp =>
      simp only [GameState.consume, Option.some.injEq] at h
      subst h; rfl
  | EndGame r =>
      simp only [GameState.consume, Option.some.injEq] at h
      subst h; rfl
  | PlayerJoined pid det =>
      simp only [GameState.consume, Option.some.injEq] at h
      subst h; rfl
  | PlayerDisconnected pid =>
      simp only [GameState.consume, Option.some.injEq] at h
      subst h; rfl
  | ShipMove pid at_ =>
      simp only [GameState.consume, Option.some.injEq] at h
      subst h; rfl
  | ShipPlaced pid at_ rot =>
      simp only [GameState.consume] at h
      cases hg : alookup pid s.players_garage with
      | none => rw [hg] at h; exact absurd h (by simp)
      | some garage =>
          rw [hg] at h
          cases garage with
          | nil => exact absurd h (by simp)
          | cons sh rest =>
              simp only at h
              cases hr : GameState.remainingShips (aupdate pid rest s.players_garage)
                  (akeys s.players) with
              | none => rw [hr] at h; exact absurd h (by simp)
              | some n =>
                  rw [hr] at h
                  simp only [Option.some.injEq] at h
                  subst h; rfl

/-- The deterministic `consume` is the insertion-order instance of `consume_ord`. -/
lemma consume_ord_insertion (s : GameState) (e : GameEvent) :
    consume_ord s.players s e = s.consume e := by
  cases e <;> rfl

/-- Every successful order-explicit `consume_ord` also appends exactly the
consumed event to `history`. -/
lemma consume_ord_history (ord : List (PlayerId × Player)) (s : GameState)
    (e : GameEvent) (s' : GameState) (h : consume_ord ord s e = some s') :
    s'.history = s.history ++ [e] := by
  cases e with
  | ShipMove pid at_ =>
      simp only [consume_ord, Option.some.injEq] at h
      subst h; rfl
  | BeginGame fp => exact consume_history s _ s' h
  | EndGame r => exact consume_history s _ s' h
  | PlayerJoined pid det => exact consume_history s _ s' h
  | PlayerDisconnected pid => exact consume_history s _ s' h
  | ShipPlaced pid at_ rot => exact consume_history s _ s' h

/-- A successful order-explicit replay fold extends the history by exactly the
replayed events, whatever enumeration orders were used. -/
lemma consumeAllOrd_history :
    ∀ (evs : List GameEvent) (ords : List (List (PlayerId × Player)))
      (s0 s : GameState), consumeAllOrd ords evs s0 = some s →
      s.history = s0.history ++ evs := by
  intro evs
  induction evs with
  | nil =>
      intro ords s0 s h
      simp only [consumeAllOrd, Option.some.injEq] at h
      subst h; simp
  | cons e rest ih =>
      intro ords s0 s h
      simp only [consumeAllOrd] at h
      cases hc : consume_ord (ords.headD s0.players) s0 e with
      | none => rw [hc] at h; exact absurd h (by simp)
      | some s1 =>
          rw [hc] at h
          rw [ih ords.tail s1 s h, consume_ord_history _ s0 e s1 hc]
          simp

/-- One step of the validated fold, written with `Option.bind`. -/
lemma validFold_cons (e : GameEvent) (evs : List GameEvent) (s : GameState) :
    validFold (e :: evs) s =
      if s.validade e then (s.consume e).bind (validFold evs) else none := by
  by_cases hv : s.validade e <;> cases hc : s.consume e <;> simp [validFold, hv, hc]

/-- Consuming a ShipPlaced by the first seat in a clean two-seat state pops the
head of the first seat's queue and flips the stage iff both queues drained. -/
lemma consume_shipPlaced_fst {p1 p2 : PlayerId} (hne : p1 ≠ p2)
    (s : GameState) (co : CubeCoords) (rot : Nat) (d1 d2 : Player)
    (c : ShipType) (r1 g2 : List ShipType)
    (hp : s.players = [(p1, d1), (p2, d2)])
    (hg : s.players_garage = [(p1, c :: r1), (p2, g2)]) :
    s.consume (GameEvent.ShipPlaced p1 co rot) = some
      { s with players_garage := [(p1, r1), (p2, g2)]
               stage := if r1.length + g2.length = 0 then GameStage.InGame else s.stage
               history := s.history ++ [GameEvent.ShipPlaced p1 co rot] } := by
  simp only [GameState.consume, hg, hp, alookup, aupdate, akeys, List.map,
    GameState.remainingShips]
  simp [hne, Ne.symm hne]

/-- Consuming a ShipPlaced by the second seat in a clean two-seat state pops the
head of the second seat's queue and flips the stage iff both queues drained. -/
lemma consume_shipPlaced_snd {p1 p2 : PlayerId} (hne : p1 ≠ p2)
    (s : GameState) (co : CubeCoords) (rot : Nat) (d1 d2 : Player)
    (c : ShipType) (g1 r2 : List ShipType)
    (hp : s.players = [(p1, d1), (p2, d2)])
    (hg : s.players_garage = [(p1, g1), (p2, c :: r2)]) :
    s.consume (GameEvent.ShipPlaced p2 co rot) = some
      { s with players_garage := [(p1, g1), (p2, r2)]
               stage := if g1.length + r2.length = 0 then GameStage.InGame else s.stage
               history := s.history ++ [GameEvent.ShipPlaced p2 co rot] } := by
  simp only [GameState.consume, hg, hp, alookup, aupdate, akeys, List.map,
    GameState.remainingShips]
  simp [alookup, GameState.remainingShips, hne, Ne.symm hne]

/-- A validated placement-only run preserves the two-seat invariant and drains
exactly one ship per consumed event. -/
lemma validFold_placement {p1 p2 : PlayerId} {d1 d2 : Player} (hne : p1 ≠ p2) :
    ∀ (evs : List GameEvent) (s s' : GameState),
      TwoSeatInv p1 p2 d1 d2 s → evs.all isShipPlaced = true →
      validFold evs s = some s' →
      TwoSeatInv p1 p2 d1 d2 s' ∧ garageTotal s' + evs.length = garageTotal s := by
  intro evs
  induction evs with
  | nil =>
      intro s s' hinv hall h
      simp only [validFold, Option.some.injEq] at h
      subst h
      exact ⟨hinv, by simp⟩
  | cons e rest ih =>
      intro s s' hinv hall h
      simp only [List.all_cons, Bool.and_eq_true] at hall
      obtain ⟨he, hrest⟩ := hall
      obtain ⟨hp, g1, g2, hg, hst⟩ := hinv
      rw [validFold_cons] at h
      by_cases hv : s.validade e = true
      · rw [if_pos hv] at h
        cases e with
        | BeginGame fp => simp [isShipPlaced] at he
        | EndGame r => simp [isShipPlaced] at he
        | PlayerJoined pid det => simp [isShipPlaced] at he
        | PlayerDisconnected pid => simp [isShipPlaced] at he
        | ShipMove pid co => simp [isShipPlaced] at he
        | ShipPlaced pid co rot =>
            have hstage : s.stage = GameStage.PreGame := by
              by_contra hcon
              simp [GameState.validade, hcon] at hv
            by_cases h1 : pid = p1
            · subst h1
              simp [GameState.validade, hstage, hg, alookup] at hv
              cases g1 with
              | nil => simp at hv
              | cons c r1 =>
                  rw [consume_shipPlaced_fst hne s co rot d1 d2 c r1 g2 hp hg] at h
                  simp only [Option.some_bind] at h
                  have hnext := ih
                    { s with players_garage := [(pid, r1), (p2, g2)]
                             stage := if r1.length + g2.length = 0 then
                               GameStage.InGame else s.stage
                             history := s.history ++ [GameEvent.ShipPlaced pid co rot] }
                    s' ⟨hp, r1, g2, rfl, by simp [hstage]⟩ hrest h
                  refine ⟨hnext.1, ?_⟩
                  have h2 := hnext.2
                  simp only [garageTotal, hg, List.map, List.sum_cons,
                    List.sum_nil, List.length, List.length_cons] at h2 ⊢
                  omega
            · by_cases h2 : pid = p2
              · subst h2
                simp [GameState.validade, hstage, hg, alookup, h1] at hv
                cases g2 with
                | nil => simp at hv
                | cons c r2 =>
                    rw [consume_shipPlaced_snd (fun hq => h1 hq.symm) s co rot d1 d2
                      c g1 r2 hp hg] at h
                    simp only [Option.some_bind] at h
                    have hnext := ih
                      { s with players_garage := [(p1, g1), (pid, r2)]
                               stage := if g1.length + r2.length = 0 then
                                 GameStage.InGame else s.stage
                               history := s.history ++ [GameEvent.ShipPlaced pid co rot] }
                      s' ⟨hp, g1, r2, rfl, by simp [hstage]⟩ hrest h
                    refine ⟨hnext.1, ?_⟩
                    have h2 := hnext.2
                    simp only [garageTotal, hg, List.map, List.sum_cons,
                      List.sum_nil, List.length, List.length_cons] at h2 ⊢
                    omega
              · exfalso
                simp [GameState.validade, hstage, hg, alookup, h1, h2] at hv
      · rw [if_neg hv] at h
        exact absurd h (by simp)

/-! ### Claim theorems -/

/-- C4: for every state `s` and event `e`, a completing `consume(s, e)` produces a
state whose `history` is exactly `s.history` with `e` appended verbatim as the
last element; hence after any sequence of consume calls the history is the
sequence of consumed events in call order, never shrunk or reordered. -/
theorem history_appends_verbatim (s : GameState) (e : GameEvent) (s' : GameState)
    (h : s.consume e = some s') : s'.history = s.history ++ [e] :=
  consume_history s e s' h

theorem history_appends_verbatim_witness :
    GameState.default.consume (GameEvent.PlayerJoined 1 pA) = some w4 ∧
    w4.history = GameState.default.history ++ [GameEvent.PlayerJoined 1 pA] :=
  ⟨rfl, history_appends_verbatim GameState.default (GameEvent.PlayerJoined 1 pA) w4 rfl⟩

/-- C3: counterexample — the round-trip fails on the program because
`next_player` scans a `HashMap` whose enumeration order is per-instance random.
The fully validated run [Joined 1, Joined 2, BeginGame 1, Joined 3, ShipMove 1]
reaches a three-player registry; under insertion order the scan yields player 2,
while under the equally legitimate enumeration `c3ord` (a permutation of the
same registry) it yields player 3.  Both runs carry the identical history, so
replaying `c3altState`'s own history with `consume` (itself one admissible
schedule) produces `c3detState`, a different aggregate. -/
theorem replay_not_deterministic :
    validFold c3evs GameState.default = some c3detState ∧
    consumeAll c3evs GameState.default = some c3detState ∧
    consumeAllOrd c3ords c3evs GameState.default = some c3altState ∧
    c3ord.Perm c3preState.players ∧
    c3detState.history = c3evs ∧ c3altState.history = c3evs ∧
    c3detState.cur_player = some 2 ∧ c3altState.cur_player = some 3 ∧
    consumeAll c3altState.history GameState.default = some c3detState ∧
    c3detState ≠ c3altState := by
  refine ⟨rfl, rfl, rfl, by decide, rfl, rfl, rfl, rfl, rfl, by decide⟩

/-- C3 (amended): the final aggregate is a deterministic function of its history
together with the registry-enumeration order used at each step: if folding the
order-explicit `consume_ord` over events from the default aggregate completes
with state `s`, folding it over `s.history` with the same per-step orders
reproduces exactly `s` (the deterministic model's replay, `consume`, is the
insertion-order instance). -/
theorem replay_round_trip_with_orders (ords : List (List (PlayerId × Player)))
    (evs : List GameEvent) (s : GameState)
    (h : consumeAllOrd ords evs GameState.default = some s) :
    consumeAllOrd ords s.history GameState.default = some s := by
  have hh : s.history = evs := by
    have := consumeAllOrd_history evs ords GameState.default s h
    simpa [GameState.default] using this
  rw [hh]
  exact h

theorem replay_round_trip_with_orders_witness :
    consumeAllOrd c3ords c3evs GameState.default = some c3altState ∧
    consumeAllOrd c3ords c3altState.history GameState.default = some c3altState :=
  ⟨rfl, replay_round_trip_with_orders c3ords c3evs c3altState rfl⟩

/-- C7: `validade(s, BeginGame{first_player})` is true exactly when `first_player`
is a key of `s.players` and `s.players` has exactly two entries; in particular
with a single registered player it returns false (and `validade`, being a pure
predicate, leaves the aggregate unchanged). -/
theorem begin_game_validation (s : GameState) (fp : PlayerId) :
    (s.validade (GameEvent.BeginGame fp) = true ↔
      containsKey fp s.players = true ∧ s.players.length = 2) ∧
    (s.players.length = 1 → s.validade (GameEvent.BeginGame fp) = false) := by
  constructor
  · simp only [GameState.validade, containsKey]
    by_cases h1 : alookup fp s.players = none
    · simp [h1]
    · by_cases h2 : s.players.length = 2 <;>
        simp [h1, h2, Option.isSome_iff_ne_none]
  · intro h1
    simp only [GameState.validade, h1]
    by_cases h : alookup fp s.players = none <;> simp [h]

theorem begin_game_validation_witness :
    w7s.players.length = 1 ∧ w7s.validade (GameEvent.BeginGame 1) = false :=
  ⟨rfl, (begin_game_validation w7s 1).2 rfl⟩

/-- C9: consuming `PlayerDisconnected{player_id}` on a state with a well-formed
registry removes only that player's registry entry: the disconnected key no
longer resolves, every other key resolves as before, and `stage`, `cur_player`
and `players_garage` (including the disconnected player's garage) are unchanged;
the only other effect is the history append. -/
theorem disconnect_frame (s : GameState) (pid : PlayerId)
    (hnd : (akeys s.players).Nodup)
    (hreg : containsKey pid s.players = true) (s' : GameState)
    (h : s.consume (GameEvent.PlayerDisconnected pid) = some s') :
    alookup pid s'.players = none ∧
    (∀ q, q ≠ pid → alookup q s'.players = alookup q s.players) ∧
    s'.stage = s.stage ∧ s'.cur_player = s.cur_player ∧
    s'.players_garage = s.players_garage ∧
    s'.history = s.history ++ [GameEvent.PlayerDisconnected pid] := by
  simp only [GameState.consume, Option.some.injEq] at h
  subst h
  exact ⟨alookup_aremove_self hnd, fun q hq => alookup_aremove_ne _ hq,
    rfl, rfl, rfl, rfl⟩

theorem disconnect_frame_witness :
    ((akeys c2State.players).Nodup ∧ containsKey 2 c2State.players = true ∧
      c2State.consume (GameEvent.PlayerDisconnected 2) = some w9s) ∧
    (alookup 2 w9s.players = none ∧
      (alookup 1 w9s.players = alookup 1 c2State.players) ∧
      w9s.stage = c2State.stage ∧ w9s.cur_player = c2State.cur_player ∧
      w9s.players_garage = c2State.players_garage ∧
      w9s.history = c2State.history ++ [GameEvent.PlayerDisconnected 2]) := by
  have hmain := disconnect_frame c2State 2 (by decide) (by decide) w9s rfl
  exact ⟨⟨by decide, by decide, rfl⟩,
    hmain.1, hmain.2.1 1 (by decide), hmain.2.2⟩

/-- C6: `validade(s, ShipMove{player_id, ..})` is true exactly when
`s.cur_player = Some(player_id)`; and in a state with exactly two registered
players whose `cur_player` is one of them, consuming a valid `ShipMove` sets
`cur_player` to the other registered player. -/
theorem ship_move_turn (s : GameState) (pid : PlayerId) (co : CubeCoords) :
    (s.validade (GameEvent.ShipMove pid co) = true ↔ s.cur_player = some pid) ∧
    (∀ a b da db, s.players = [(a, da), (b, db)] → a ≠ b →
      (s.cur_player = some a →
        (s.consume (GameEvent.ShipMove a co)).map GameState.cur_player = some (some b)) ∧
      (s.cur_player = some b →
        (s.consume (GameEvent.ShipMove b co)).map GameState.cur_player = some (some a))) := by
  constructor
  · simp only [GameState.validade, GameState.is_player_turn]
    cases hc : s.cur_player with
    | none => simp
    | some p => by_cases h : pid = p <;> simp [h, eq_comm]
  · intro a b da db hp hab
    constructor
    · intro hc
      simp only [GameState.consume, Option.map_some, GameState.next_player, hc, hp]
      simp [List.find?, hab, Ne.symm hab]
    · intro hc
      simp only [GameState.consume, Option.map_some, GameState.next_player, hc, hp]
      simp [List.find?, hab, Ne.symm hab]

theorem ship_move_turn_witness :
    ((w6s.validade (GameEvent.ShipMove 1 co0) = true ↔ w6s.cur_player = some 1) ∧
      w6s.players = [(1, pA), (2, pB)] ∧ (1 : PlayerId) ≠ 2 ∧
      w6s.cur_player = some 1 ∧
      w6s2.players = [(1, pA), (2, pB)] ∧ w6s2.cur_player = some 2) ∧
    (w6s.consume (GameEvent.ShipMove 1 co0)).map GameState.cur_player = some (some 2) ∧
    (w6s2.consume (GameEvent.ShipMove 2 co0)).map GameState.cur_player = some (some 1) := by
  have hmain := ship_move_turn w6s 1 co0
  have hmain2 := ship_move_turn w6s2 2 co0
  exact ⟨⟨hmain.1, rfl, by decide, rfl, rfl, rfl⟩,
    (hmain.2 1 2 pA pB rfl (by decide)).1 rfl,
    (hmain2.2 1 2 pA pB rfl (by decide)).2 rfl⟩

/-- C10: with `cur_player = Some(p)` and no registered player other than `p`,
`ShipMove{p, ..}` still validates, consuming it sets `cur_player` to `None`,
and from any state with `cur_player = None` every `ShipMove` is rejected, so no
further moves are ever accepted. -/
theorem lone_player_move (s : GameState) (p : PlayerId) (co : CubeCoords)
    (hc : s.cur_player = some p) (honly : ∀ q ∈ akeys s.players, q = p) :
    s.validade (GameEvent.ShipMove p co) = true ∧
    (s.consume (GameEvent.ShipMove p co)).map GameState.cur_player = some none ∧
    (∀ (s2 : GameState) (q : PlayerId) (co2 : CubeCoords),
      s2.cur_player = none → s2.validade (GameEvent.ShipMove q co2) = false) := by
  refine ⟨?_, ?_, ?_⟩
  · simp [GameState.validade, GameState.is_player_turn, hc]
  · have hfind : s.players.find? (fun kv => !decide (kv.1 = p)) = none := by
      rw [List.find?_eq_none]
      intro kv hkv
      simp [honly kv.1 (List.mem_map_of_mem Prod.fst hkv)]
    simp only [GameState.consume, Option.map_some, GameState.next_player, hc]
    simp [hfind]
  · intro s2 q co2 h
    simp [GameState.validade, GameState.is_player_turn, h]

theorem lone_player_move_witness :
    (w10s.cur_player = some 1 ∧ (∀ q ∈ akeys w10s.players, q = 1)) ∧
    (w10s.validade (GameEvent.ShipMove 1 co0) = true ∧
      (w10s.consume (GameEvent.ShipMove 1 co0)).map GameState.cur_player = some none ∧
      (∀ (s2 : GameState) (q : PlayerId) (co2 : CubeCoords),
        s2.cur_player = none → s2.validade (GameEvent.ShipMove q co2) = false)) :=
  ⟨⟨rfl, by decide⟩, lone_player_move w10s 1 co0 rfl (by decide)⟩

/-- C1: refuted on the code — a state reachable purely through validated events
(two players join, BeginGame, then a third player joins, which `validade`
accepts since PlayerJoined never checks the stage) accepts
`ShipPlaced{player_id: 1}` through `validade`, yet `consume` hits the fatal
`unwrap` of the third player's missing garage entry during the remaining-ships
sum (modelled as `none`). -/
theorem validated_ship_placed_panics :
    validFold c1Events GameState.default = some c1State ∧
    c1State.validade (spEvent 1) = true ∧
    c1State.consume (spEvent 1) = none :=
  ⟨rfl, rfl, rfl⟩

/-- C2: counterexample — a reachable state with `stage = Ended` and two
registered players accepts `BeginGame` (whose validation never inspects the
stage), and consuming it moves the aggregate back to the placement stage,
leaving `Ended`. -/
theorem ended_not_terminal_counterexample :
    validFold c2Events GameState.default = some c2State ∧
    c2State.stage = GameStage.Ended ∧
    c2State.validade (GameEvent.BeginGame 1) = true ∧
    (c2State.consume (GameEvent.BeginGame 1)).map GameState.stage =
      some GameStage.PreGame :=
  ⟨rfl, rfl, rfl, rfl⟩

/-- C2 (amended): from a state with `stage = Ended`, every validated event other
than `BeginGame` leaves `stage = Ended`; `BeginGame` is the one validated event
that can transition the aggregate out of `Ended`. -/
theorem ended_stays_ended_except_begin (s : GameState) (e : GameEvent)
    (hst : s.stage = GameStage.Ended) (hv : s.validade e = true)
    (hne : ∀ fp, e ≠ GameEvent.BeginGame fp) (s' : GameState)
    (h : s.consume e = some s') : s'.stage = GameStage.Ended := by
  cases e with
  | BeginGame fp => exact absurd rfl (hne fp)
  | EndGame r =>
      simp only [GameState.consume, Option.some.injEq] at h
      subst h; rfl
  | PlayerJoined pid det =>
      simp only [GameState.consume, Option.some.injEq] at h
      subst h; exact hst
  | PlayerDisconnected pid =>
      simp only [GameState.consume, Option.some.injEq] at h
      subst h; exact hst
  | ShipMove pid co =>
      simp only [GameState.consume, Option.some.injEq] at h
      subst h; exact hst
  | ShipPlaced pid co rot =>
      exfalso
      simp [GameState.validade, hst] at hv

theorem ended_stays_ended_except_begin_witness :
    (c2State.stage = GameStage.Ended ∧
      c2State.validade (GameEvent.EndGame (EndGameReason.PlayerLeft 1)) = true ∧
      c2State.consume (GameEvent.EndGame (EndGameReason.PlayerLeft 1)) = some c2wState) ∧
    c2wState.stage = GameStage.Ended :=
  ⟨⟨rfl, rfl, rfl⟩,
    ended_stays_ended_except_begin c2State (GameEvent.EndGame (EndGameReason.PlayerLeft 1))
      rfl rfl (fun fp hcontra => GameEvent.noConfusion hcontra) c2wState rfl⟩

/-- C8: consuming `BeginGame{first_player}` sets `cur_player = Some(first_player)`,
gives every currently registered player a garage queue that is a full copy of the
Ship Roster in roster order, and sets the stage to the placement stage; and no
event other than `BeginGame` ever creates a garage entry for a player who has
none, so players who join afterwards never receive one. -/
theorem begin_game_seeds_garages (s : GameState) (fp : PlayerId) :
    (∀ s1, s.consume (GameEvent.BeginGame fp) = some s1 →
      s1.cur_player = some fp ∧ s1.stage = GameStage.PreGame ∧
      ∀ p, p ∈ akeys s.players → alookup p s1.players_garage = some SHIPS) ∧
    (∀ e, (∀ fp2, e ≠ GameEvent.BeginGame fp2) → ∀ s2, s.consume e = some s2 →
      ∀ p, alookup p s.players_garage = none → alookup p s2.players_garage = none) := by
  constructor
  · intro s1 h
    simp only [GameState.consume, Option.some.injEq] at h
    subst h
    exact ⟨rfl, rfl, fun p hp => alookup_seed_of_mem (akeys s.players) s.players_garage hp⟩
  · intro e hne s2 h p hp
    cases e with
    | BeginGame fp2 => exact absurd rfl (hne fp2)
    | EndGame r =>
        simp only [GameState.consume, Option.some.injEq] at h
        subst h; exact hp
    | PlayerJoined pid det =>
        simp only [GameState.consume, Option.some.injEq] at h
        subst h; exact hp
    | PlayerDisconnected pid =>
        simp only [GameState.consume, Option.some.injEq] at h
        subst h; exact hp
    | ShipMove pid co =>
        simp only [GameState.consume, Option.some.injEq] at h
        subst h; exact hp
    | ShipPlaced pid co rot =>
        simp only [GameState.consume] at h
        cases hg : alookup pid s.players_garage with
        | none => rw [hg] at h; exact absurd h (by simp)
        | some garage =>
            rw [hg] at h
            cases garage with
            | nil => exact absurd h (by simp)
            | cons sh rest =>
                simp only at h
                cases hr : GameState.remainingShips (aupdate pid rest s.players_garage)
                    (akeys s.players) with
                | none => rw [hr] at h; exact absurd h (by simp)
                | some n =>
                    rw [hr] at h
                    simp only [Option.some.injEq] at h
                    subst h
                    exact alookup_aupdate_of_none rest hp

theorem begin_game_seeds_garages_witness :
    (c2State.consume (GameEvent.BeginGame 1) = some w8post ∧
      (1 : PlayerId) ∈ akeys c2State.players ∧
      (2 : PlayerId) ∈ akeys c2State.players ∧
      ∀ fp2, GameEvent.PlayerJoined 3 pC ≠ GameEvent.BeginGame fp2) ∧
    (w8post.cur_player = some 1 ∧ w8post.stage = GameStage.PreGame ∧
      alookup 1 w8post.players_garage = some SHIPS ∧
      alookup 2 w8post.players_garage = some SHIPS) := by
  have hmain := (begin_game_seeds_garages c2State 1).1 w8post rfl
  exact ⟨⟨rfl, by decide, by decide, fun fp2 hcontra => GameEvent.noConfusion hcontra⟩,
    hmain.1, hmain.2.1, hmain.2.2 1 (by decide), hmain.2.2 2 (by decide)⟩

/-- C5: starting from a fresh two-player placement state (both garages seeded
with the full roster, stage just set by BeginGame), a validated run of exactly
N ShipPlaced events, N being the sum of both players' initial roster sizes
(`2 * SHIPS.length`), ends with the in-game stage; any shorter validated run
(in particular N-1 events) leaves the placement stage. -/
theorem placement_drain (p1 p2 : PlayerId) (d1 d2 : Player)
    (evs : List GameEvent) (s s' : GameState) (hne : p1 ≠ p2)
    (hp : s.players = [(p1, d1), (p2, d2)])
    (hg : s.players_garage = [(p1, SHIPS), (p2, SHIPS)])
    (hst : s.stage = GameStage.PreGame)
    (hall : evs.all isShipPlaced = true)
    (hfold : validFold evs s = some s') :
    (evs.length = 2 * SHIPS.length → s'.stage = GameStage.InGame) ∧
    (evs.length < 2 * SHIPS.length → s'.stage = GameStage.PreGame) := by
  have hinv : TwoSeatInv p1 p2 d1 d2 s :=
    ⟨hp, SHIPS, SHIPS, hg, by rw [hst]; simp [SHIPS]⟩
  obtain ⟨⟨hp', g1, g2, hg', hst'⟩, htot⟩ :=
    validFold_placement hne evs s s' hinv hall hfold
  have hts : garageTotal s = 2 * SHIPS.length := by
    simp [garageTotal, hg]
    omega
  have hts' : garageTotal s' = g1.length + g2.length := by
    simp [garageTotal, hg']
  constructor
  · intro hlen
    have hz : g1.length + g2.length = 0 := by omega
    rw [hst', if_pos hz]
  · intro hlen
    have hz : g1.length + g2.length ≠ 0 := by omega
    rw [hst', if_neg hz]

theorem placement_drain_witness :
    ((1 : PlayerId) ≠ 2 ∧
      w5s.players = [(1, pA), (2, pB)] ∧
      w5s.players_garage = [(1, SHIPS), (2, SHIPS)] ∧
      w5s.stage = GameStage.PreGame ∧
      w5evs.all isShipPlaced = true ∧
      validFold w5evs w5s = some w5final ∧
      w5evs.length = 2 * SHIPS.length) ∧
    w5final.stage = GameStage.InGame := by
  have hmain := placement_drain 1 2 pA pB w5evs w5s w5final (by decide)
    rfl rfl rfl (by decide) rfl
  exact ⟨⟨by decide, rfl, rfl, rfl, by decide, rfl, by decide⟩, hmain.1 (by decide)⟩

end Battleships
